import Mathlib

/-
  Verification development for the physics-animation repository.

  The simulation engine of the repository (radial fall, circular orbits,
  tangential kicks, weak-field correction) is shallowly embedded here.
  Floating-point arithmetic of the source is idealised as arithmetic in a
  linear ordered field K (instantiated at ℚ for concrete evaluation and at
  ℝ where genuine square roots matter).  The square-root, cosine and sine
  routines of numpy/math are abstracted as function parameters, so every
  definition stays computable; theorems that need the true square root
  instantiate the parameter with Real.sqrt.
-/

set_option maxHeartbeats 1000000

/-- How the radial-fall loop of 020-Radial-Fall-Movie.py exited: the check
at the top of the loop body (R less or equal R_Min), the clamp branch
(R_New less or equal R_Min), or exhaustion of the step range. -/
inductive RadialExit : Type
  | headBreak : RadialExit
  | clampBreak : RadialExit
  | fuelOut : RadialExit
deriving DecidableEq

variable {K : Type} [LinearOrderedField K]

/-- Acc of Simulate_Radial_Fall in 020-Radial-Fall-Movie.py: -G / R. -/
def Radial_Acc (G R : K) : K := -G / R

/-- The stepping loop of Simulate_Radial_Fall in 020-Radial-Fall-Movie.py.
Arguments after the fuel are the current radius R, velocity V and time T.
Returns the recorded (time, radius) entries together with the exit kind. -/
def Radial_Loop (G Dt R_Min : K) : Nat → K → K → K → List (K × K) × RadialExit
  | 0, _, _, _ => ([], RadialExit.fuelOut)
  | n + 1, R, V, T =>
    if R ≤ R_Min then ([], RadialExit.headBreak)
    else
      let A0 := Radial_Acc G R
      let R_New := R + V * Dt + 1 / 2 * A0 * Dt * Dt
      if R_New ≤ R_Min then ([(T + Dt, R_Min)], RadialExit.clampBreak)
      else
        let A1 := Radial_Acc G R_New
        let V_New := V + 1 / 2 * (A0 + A1) * Dt
        let rest := Radial_Loop G Dt R_Min n R_New V_New (T + Dt)
        ((T + Dt, R_New) :: rest.1, rest.2)

/-- Simulate_Radial_Fall of 020-Radial-Fall-Movie.py.  The two returned
numpy arrays are embedded as one list of (time, radius) pairs; the exit
kind instruments which break ended the loop. -/
def Simulate_Radial_Fall (G R_Start V_Start Dt : K) (Step_Count : Nat) (R_Min : K) :
    List (K × K) × RadialExit :=
  Radial_Loop G Dt R_Min Step_Count R_Start V_Start 0

theorem Radial_Loop_radius_ge (G Dt R_Min : K) :
    ∀ (n : Nat) (R V T : K), ∀ p ∈ (Radial_Loop G Dt R_Min n R V T).1, R_Min ≤ p.2 := by
  intro n
  induction n with
  | zero =>
    intro R V T p hp
    simp [Radial_Loop] at hp
  | succ n ih =>
    intro R V T p hp
    rw [Radial_Loop] at hp
    by_cases h1 : R ≤ R_Min
    · simp [h1] at hp
    · rw [if_neg h1] at hp
      simp only at hp
      by_cases h2 : R + V * Dt + 1 / 2 * Radial_Acc G R * Dt * Dt ≤ R_Min
      · rw [if_pos h2] at hp
        simp at hp
        rw [hp]
      · rw [if_neg h2] at hp
        simp only [List.mem_cons] at hp
        rcases hp with hp | hp
        · rw [hp]
          exact le_of_not_le h2
        · exact ih _ _ _ p hp

theorem Radial_Loop_clamp_last (G Dt R_Min : K) :
    ∀ (n : Nat) (R V T : K),
      (Radial_Loop G Dt R_Min n R V T).2 = RadialExit.clampBreak →
      ∃ t : K, (Radial_Loop G Dt R_Min n R V T).1.getLast? = some (t, R_Min) := by
  intro n
  induction n with
  | zero =>
    intro R V T h
    simp [Radial_Loop] at h
  | succ n ih =>
    intro R V T h
    rw [Radial_Loop] at h ⊢
    by_cases h1 : R ≤ R_Min
    · simp [h1] at h
    · rw [if_neg h1] at h ⊢
      simp only at h ⊢
      by_cases h2 : R + V * Dt + 1 / 2 * Radial_Acc G R * Dt * Dt ≤ R_Min
      · rw [if_pos h2]
        exact ⟨T + Dt, rfl⟩
      · rw [if_neg h2] at h ⊢
        simp only at h ⊢
        obtain ⟨t, ht⟩ := ih _ _ _ h
        refine ⟨t, ?_⟩
        rcases hrest : (Radial_Loop G Dt R_Min n
            (R + V * Dt + 1 / 2 * Radial_Acc G R * Dt * Dt)
            (V + 1 / 2 * (Radial_Acc G R +
              Radial_Acc G (R + V * Dt + 1 / 2 * Radial_Acc G R * Dt * Dt)) * Dt)
            (T + Dt)).1 with _ | ⟨b, l⟩
        · rw [hrest] at ht
          simp at ht
        · rw [hrest] at ht
          rw [List.getLast?_cons_cons]
          exact ht

/-- Claim C2: in a radial-fall run started strictly above the minimum
radius which terminates through the minimum-radius clamp, every recorded
radius is at least R_Min, and the last recorded entry has radius exactly
R_Min (hence nothing is recorded after the clamped entry). -/
theorem C2_radial_termination_clamp (G R_Start V_Start Dt : K) (Step_Count : Nat) (R_Min : K)
    (hstart : R_Min < R_Start)
    (hclamp : (Simulate_Radial_Fall G R_Start V_Start Dt Step_Count R_Min).2 =
      RadialExit.clampBreak) :
    (∀ p ∈ (Simulate_Radial_Fall G R_Start V_Start Dt Step_Count R_Min).1, R_Min ≤ p.2) ∧
    (∃ t : K, (Simulate_Radial_Fall G R_Start V_Start Dt Step_Count R_Min).1.getLast? =
      some (t, R_Min)) := by
  constructor
  · exact Radial_Loop_radius_ge G Dt R_Min Step_Count R_Start V_Start 0
  · exact Radial_Loop_clamp_last G Dt R_Min Step_Count R_Start V_Start 0 hclamp

/-- Witness for C2 at a concrete input: G = 1, R_Start = 2, V_Start = 0,
Dt = 1, three steps, R_Min = 1; the run clamps at the second step. -/
theorem C2_radial_termination_clamp_witness :
    (1 : ℚ) < 2 ∧
    (Simulate_Radial_Fall (1 : ℚ) 2 0 1 3 1).2 = RadialExit.clampBreak ∧
    (∀ p ∈ (Simulate_Radial_Fall (1 : ℚ) 2 0 1 3 1).1, (1 : ℚ) ≤ p.2) :=
  ⟨by norm_num, by norm_num [Simulate_Radial_Fall, Radial_Loop, Radial_Acc],
    (C2_radial_termination_clamp (1 : ℚ) 2 0 1 3 1 (by norm_num)
      (by norm_num [Simulate_Radial_Fall, Radial_Loop, Radial_Acc])).1⟩

/-- Claim C10: a radial-fall run whose start radius is already at or
below the minimum radius records no entries at all. -/
theorem C10_radial_start_below_min_empty (G R_Start V_Start Dt : K) (Step_Count : Nat)
    (R_Min : K) (h : R_Start ≤ R_Min) :
    (Simulate_Radial_Fall G R_Start V_Start Dt Step_Count R_Min).1 = [] := by
  cases Step_Count with
  | zero => rfl
  | succ n =>
    unfold Simulate_Radial_Fall Radial_Loop
    rw [if_pos h]

/-- Witness for C10 at a concrete input: start radius 1 equal to the
minimum radius 1. -/
theorem C10_radial_start_below_min_empty_witness :
    (1 : ℚ) ≤ 1 ∧ (Simulate_Radial_Fall (64 : ℚ) 1 0 1 5 1).1 = [] :=
  ⟨le_refl 1, C10_radial_start_below_min_empty (64 : ℚ) 1 0 1 5 1 (le_refl 1)⟩

/-- Counterexample to claim C6: the configuration G = 0 (non-positive
field strength) is not rejected; the radial-fall run executes three
integration steps and records three trace entries instead of failing
fast with no entries. -/
theorem C6_counterexample :
    (Simulate_Radial_Fall (0 : ℚ) 2 0 1 3 1).1 = [(1, 2), (2, 2), (3, 2)] := by
  norm_num [Simulate_Radial_Fall, Radial_Loop, Radial_Acc]

/-- Claim C6 amended: the source performs no configuration validation.
With max_steps = 0 the radial-fall run returns an empty trace by plain
loop exhaustion, and an invalid configuration such as field strength 0
still runs to normal exhaustion with no error of any kind. -/
theorem C6_amended_no_validation (G R_Start V_Start Dt R_Min : K) :
    Simulate_Radial_Fall G R_Start V_Start Dt 0 R_Min = ([], RadialExit.fuelOut) ∧
    (Simulate_Radial_Fall (0 : ℚ) 2 0 1 3 1).2 = RadialExit.fuelOut :=
  ⟨rfl, by norm_num [Simulate_Radial_Fall, Radial_Loop, Radial_Acc]⟩

/-- Counterexample to claim C7: in the radial-fall simulation the first
recorded time is Dt (here 1), not 0, and the initial state is never
recorded as a trace entry. -/
theorem C7_counterexample :
    ((Simulate_Radial_Fall (0 : ℚ) 2 0 1 3 1).1.map Prod.fst).head? = some 1 ∧
    (1 : ℚ) ≠ 0 := by
  constructor
  · norm_num [Simulate_Radial_Fall, Radial_Loop, Radial_Acc]
  · norm_num

/-- Squared euclidean norm; Np.linalg.norm of the source is sqrtF applied
to this, with sqrtF the abstracted floating-point square root. -/
def norm2 (d : Nat) (v : Fin d → K) : K := ∑ i, v i ^ 2

/-- Acc_Vector of 031-Orbit-Kick.py: (-G) * Pos / R ** Dim with
R = Np.linalg.norm(Pos), taken componentwise. -/
def Acc_Vector (d : Nat) (sqrtF : K → K) (G : K) (Pos : Fin d → K) : Fin d → K :=
  fun i => -G * Pos i / sqrtF (norm2 d Pos) ^ d

/-- The integration part of the loop body of Simulate_With_Tangential_Kick
in 031-Orbit-Kick.py: Acc0, Pos_New, Acc1, velocity update. -/
def Step_031 (d : Nat) (sqrtF : K → K) (G Dt : K) (Pos Vel : Fin d → K) :
    (Fin d → K) × (Fin d → K) :=
  let Acc0 := Acc_Vector d sqrtF G Pos
  let Pos_New := fun i => Pos i + Vel i * Dt + 1 / 2 * Acc0 i * Dt * Dt
  let Acc1 := Acc_Vector d sqrtF G Pos_New
  (Pos_New, fun i => Vel i + 1 / 2 * (Acc0 i + Acc1 i) * Dt)

/-- Cross product Np.cross(Pos, Vel) for three-dimensional vectors, as in
032-Orbit-Kick-ART.py. -/
def cross3 (a b : Fin 3 → K) : Fin 3 → K :=
  ![a 1 * b 2 - a 2 * b 1, a 2 * b 0 - a 0 * b 2, a 0 * b 1 - a 1 * b 0]

/-- Np.dot for three-dimensional vectors. -/
def dot3 (a b : Fin 3 → K) : K := ∑ i, a i * b i

/-- Acc_Vector_GR_Approx of 032-Orbit-Kick-ART.py: the Newtonian term
(-G) * Pos / R ** 3 plus the weak-field term
(-3 * G * L2 / (C * C * R ** 5)) * Pos with L2 the squared magnitude of
Np.cross(Pos, Vel), componentwise. -/
def Acc_Vector_GR_Approx (sqrtF : K → K) (G C : K) (Pos Vel : Fin 3 → K) : Fin 3 → K :=
  fun i =>
    -G * Pos i / sqrtF (norm2 3 Pos) ^ 3 +
      -3 * G * dot3 (cross3 Pos Vel) (cross3 Pos Vel) /
        (C * C * sqrtF (norm2 3 Pos) ^ 5) * Pos i

/-- The integration part of the loop body of
Simulate_Orbit_GR_With_Tangential_Kick in 032-Orbit-Kick-ART.py.  Note
that Acc1 is evaluated at Pos_New with the not yet updated velocity. -/
def Step_GR (sqrtF : K → K) (G C Dt : K) (Pos Vel : Fin 3 → K) :
    (Fin 3 → K) × (Fin 3 → K) :=
  let Acc0 := Acc_Vector_GR_Approx sqrtF G C Pos Vel
  let Pos_New := fun i => Pos i + Vel i * Dt + 1 / 2 * Acc0 i * Dt * Dt
  let Acc1 := Acc_Vector_GR_Approx sqrtF G C Pos_New Vel
  (Pos_New, fun i => Vel i + 1 / 2 * (Acc0 i + Acc1 i) * Dt)

/-- Modelled from the spec: one velocity-Verlet step for an abstract
acceleration law, exactly as section 4.2 of the specification writes it:
a0 at the current state, the position update with half a0 times the
squared step, a1 at the new position with the pre-update velocity, then
the velocity update with the mean of a0 and a1. -/
def Verlet_Spec_Step (d : Nat) (acc : (Fin d → K) → (Fin d → K) → Fin d → K) (Dt : K)
    (Pos Vel : Fin d → K) : (Fin d → K) × (Fin d → K) :=
  let a0 := acc Pos Vel
  let Pos2 := Pos + Dt • Vel + (1 / 2 * Dt ^ 2) • a0
  let a1 := acc Pos2 Vel
  (Pos2, Vel + (1 / 2 * Dt) • (a0 + a1))

/-- Claim C1: for every state, force configuration and step size, the
integration step of both kick simulations is exactly the velocity-Verlet
scheme of the specification, with the second acceleration evaluated at
the new position and the pre-update velocity (also for the weak-field
law). -/
theorem C1_velocity_verlet_scheme (d : Nat) (sqrtF : K → K) (G C Dt : K)
    (Pos Vel : Fin d → K) (Pos3 Vel3 : Fin 3 → K) :
    Step_031 d sqrtF G Dt Pos Vel =
      Verlet_Spec_Step d (fun p _ => Acc_Vector d sqrtF G p) Dt Pos Vel ∧
    Step_GR sqrtF G C Dt Pos3 Vel3 =
      Verlet_Spec_Step 3 (fun p v => Acc_Vector_GR_Approx sqrtF G C p v) Dt Pos3 Vel3 := by
  have hgen : ∀ (e : Nat) (a : (Fin e → K) → (Fin e → K) → Fin e → K) (P V : Fin e → K),
      (fun i => P i + V i * Dt + 1 / 2 * a P V i * Dt * Dt) =
        P + Dt • V + (1 / 2 * Dt ^ 2) • a P V := by
    intro e a P V
    funext i
    simp only [Pi.add_apply, Pi.smul_apply, smul_eq_mul]
    ring
  constructor
  · unfold Step_031 Verlet_Spec_Step
    simp only
    rw [hgen d (fun p _ => Acc_Vector d sqrtF G p) Pos Vel]
    refine Prod.ext rfl ?_
    funext i
    simp only [Pi.add_apply, Pi.smul_apply, smul_eq_mul]
    ring
  · unfold Step_GR Verlet_Spec_Step
    simp only
    rw [hgen 3 (fun p v => Acc_Vector_GR_Approx sqrtF G C p v) Pos3 Vel3]
    refine Prod.ext rfl ?_
    funext i
    simp only [Pi.add_apply, Pi.smul_apply, smul_eq_mul]
    ring

/-- The kick block of Simulate_With_Tangential_Kick in 031-Orbit-Kick.py:
with Speed0 the norm of the velocity, the velocity is multiplied by
V1 / Speed0 when Speed0 is strictly positive and left unchanged
otherwise. -/
def Kick_Update (d : Nat) (sqrtF : K → K) (V1 : K) (Vel : Fin d → K) : Fin d → K :=
  if 0 < sqrtF (norm2 d Vel) then (V1 / sqrtF (norm2 d Vel)) • Vel else Vel

/-- The kick block acting on the whole (position, velocity) state: the
source block assigns only Vel, so the position component passes through
untouched. -/
def Kick_State (d : Nat) (sqrtF : K → K) (V1 : K)
    (s : (Fin d → K) × (Fin d → K)) : (Fin d → K) × (Fin d → K) :=
  (s.1, Kick_Update d sqrtF V1 s.2)

theorem norm2_smul (d : Nat) (c : K) (v : Fin d → K) :
    norm2 d (c • v) = c ^ 2 * norm2 d v := by
  unfold norm2
  rw [Finset.mul_sum]
  refine Finset.sum_congr rfl ?_
  intro i _
  simp only [Pi.smul_apply, smul_eq_mul]
  ring

theorem Real_sqrt_norm2_smul (d : Nat) (c : ℝ) (v : Fin d → ℝ) :
    Real.sqrt (norm2 d (c • v)) = |c| * Real.sqrt (norm2 d v) := by
  rw [norm2_smul, Real.sqrt_mul (sq_nonneg c), Real.sqrt_sq_eq_abs]

/-- Counterexample to claim C3: with target speed V1 = -1 and unit
velocity, the rescaled velocity has magnitude 1, not the (negative)
target speed -1; the claim that the magnitude becomes exactly V1 fails
for negative V1. -/
theorem C3_counterexample :
    Real.sqrt (norm2 1 (Kick_Update 1 Real.sqrt (-1) (fun _ => (1 : ℝ)))) = 1 ∧
    (1 : ℝ) ≠ -1 := by
  have h1 : norm2 1 (fun _ => (1 : ℝ)) = 1 := by
    simp [norm2]
  have h2 : Kick_Update 1 Real.sqrt (-1) (fun _ => (1 : ℝ)) =
      ((-1 : ℝ) / Real.sqrt 1) • (fun _ => (1 : ℝ)) := by
    unfold Kick_Update
    rw [h1, Real.sqrt_one, if_pos one_pos]
  constructor
  · rw [h2, Real_sqrt_norm2_smul, h1, Real.sqrt_one]
    norm_num
  · norm_num

/-- Claim C3 amended: the kick never changes the position; with zero
pre-kick speed the velocity is unchanged; with strictly positive
pre-kick speed the velocity is rescaled to magnitude exactly the
absolute value of the target speed (equal to the target speed whenever
that is nonnegative), by a scalar factor that is nonnegative whenever
the target speed is, so the direction is preserved. -/
theorem C3_amended_kick_rescale (d : Nat) (V1 : ℝ) (s : (Fin d → ℝ) × (Fin d → ℝ)) :
    (Kick_State d Real.sqrt V1 s).1 = s.1 ∧
    (¬ 0 < Real.sqrt (norm2 d s.2) → (Kick_State d Real.sqrt V1 s).2 = s.2) ∧
    (0 < Real.sqrt (norm2 d s.2) →
      Real.sqrt (norm2 d (Kick_State d Real.sqrt V1 s).2) = |V1| ∧
      (0 ≤ V1 → Real.sqrt (norm2 d (Kick_State d Real.sqrt V1 s).2) = V1) ∧
      ∃ c : ℝ, (0 ≤ V1 → 0 ≤ c) ∧ (Kick_State d Real.sqrt V1 s).2 = c • s.2) := by
  refine ⟨rfl, ?_, ?_⟩
  · intro h
    show Kick_Update d Real.sqrt V1 s.2 = s.2
    unfold Kick_Update
    rw [if_neg h]
  · intro h
    have hku : (Kick_State d Real.sqrt V1 s).2 =
        (V1 / Real.sqrt (norm2 d s.2)) • s.2 := by
      show Kick_Update d Real.sqrt V1 s.2 = _
      unfold Kick_Update
      rw [if_pos h]
    have hmag : Real.sqrt (norm2 d (Kick_State d Real.sqrt V1 s).2) = |V1| := by
      rw [hku, Real_sqrt_norm2_smul, abs_div,
        abs_of_pos h, div_mul_cancel₀ _ (ne_of_gt h)]
    refine ⟨hmag, ?_, ?_⟩
    · intro hV1
      rw [hmag, abs_of_nonneg hV1]
    · refine ⟨V1 / Real.sqrt (norm2 d s.2), ?_, hku⟩
      intro hV1
      exact div_nonneg hV1 (le_of_lt h)

/-- Witness for C3 amended at a concrete input: unit velocity in one
dimension and target speed 2. -/
theorem C3_amended_kick_rescale_witness :
    0 < Real.sqrt (norm2 1 (((fun _ => 0), (fun _ => 1)) :
      (Fin 1 → ℝ) × (Fin 1 → ℝ)).2) ∧
    Real.sqrt (norm2 1 (Kick_State 1 Real.sqrt 2
      (((fun _ => 0), (fun _ => 1)) : (Fin 1 → ℝ) × (Fin 1 → ℝ))).2) = |(2 : ℝ)| := by
  have h : norm2 1 (fun _ => (1 : ℝ)) = 1 := by simp [norm2]
  have hpos : 0 < Real.sqrt (norm2 1 (fun _ => (1 : ℝ))) := by
    rw [h, Real.sqrt_one]; norm_num
  exact ⟨hpos,
    ((C3_amended_kick_rescale 1 2 (((fun _ => 0), (fun _ => 1)) :
      (Fin 1 → ℝ) × (Fin 1 → ℝ))).2.2 hpos).1⟩

/-- The builtin round of Python 3 on a float ratio: round half to even. -/
def pyRound [FloorRing K] (x : K) : ℤ :=
  if x - ⌊x⌋ < 1 / 2 then ⌊x⌋
  else if 1 / 2 < x - ⌊x⌋ then ⌊x⌋ + 1
  else if ⌊x⌋ % 2 = 0 then ⌊x⌋ else ⌊x⌋ + 1

/-- Kick_Step of 031-Orbit-Kick.py: int(round(Kick_Time / Dt)) clamped by
max(0, min(Step_Count - 1, Kick_Step)). -/
def Kick_Step_Of [FloorRing K] (Kick_Time Dt : K) (Step_Count : Nat) : ℤ :=
  max 0 (min ((Step_Count : ℤ) - 1) (pyRound (Kick_Time / Dt)))

/-- The kick trigger test of the loop in 031-Orbit-Kick.py:
(not Kick_Done) and (Step greater or equal Kick_Step). -/
def Kick_Fire (ks : ℤ) (Step : Nat) (done : Bool) : Bool :=
  !done && decide (ks ≤ (Step : ℤ))

/-- The stepping loop of Simulate_With_Tangential_Kick in
031-Orbit-Kick.py.  The first component collects the recorded
(Pos_Array, Vel_Array) entries, written after the update, exactly as the
source does; the second component instruments the step indices at which
the kick branch executed (the one-shot Kick_Done transition). -/
def Kick_Loop (d : Nat) (sqrtF : K → K) (G Dt V1 : K) (ks : ℤ) :
    Nat → Nat → (Fin d → K) → (Fin d → K) → Bool →
    List ((Fin d → K) × (Fin d → K)) × List Nat
  | 0, _, _, _, _ => ([], [])
  | n + 1, Step, Pos, Vel, done =>
    let fire := Kick_Fire ks Step done
    let Vel2 := if fire then Kick_Update d sqrtF V1 Vel else Vel
    let s := Step_031 d sqrtF G Dt Pos Vel2
    let rest := Kick_Loop d sqrtF G Dt V1 ks n (Step + 1) s.1 s.2 (fire || done)
    (s :: rest.1, (if fire then [Step] else []) ++ rest.2)

/-- Initial position of 031-Orbit-Kick.py: zeros with Pos[0] = R0. -/
def Init_Pos (d : Nat) (R0 : K) : Fin d → K := fun i => if (i : Nat) = 0 then R0 else 0

/-- Initial velocity of 031-Orbit-Kick.py: zeros with Vel[1] = V0. -/
def Init_Vel (d : Nat) (V0 : K) : Fin d → K := fun i => if (i : Nat) = 1 then V0 else 0

/-- Simulate_With_Tangential_Kick of 031-Orbit-Kick.py.  Step_Count is
int(Np.ceil(T_Total / Dt)) + 1; returned are the recorded state entries,
the time array Np.arange(Step_Count) * Dt, the clamped kick step, and
the instrumented list of steps at which the kick branch executed. -/
def Simulate_With_Tangential_Kick [FloorRing K] (d : Nat) (sqrtF : K → K)
    (G R0 V0 V1 Kick_Time Dt T_Total : K) :
    List ((Fin d → K) × (Fin d → K)) × List K × ℤ × List Nat :=
  let Step_Count := (⌈T_Total / Dt⌉ + 1).toNat
  let ks := Kick_Step_Of Kick_Time Dt Step_Count
  let res := Kick_Loop d sqrtF G Dt V1 ks Step_Count 0 (Init_Pos d R0) (Init_Vel d V0) false
  (res.1, (List.range Step_Count).map (fun i : ℕ => (i : K) * Dt), ks, res.2)

theorem Kick_Loop_fired_done (d : Nat) (sqrtF : K → K) (G Dt V1 : K) (ks : ℤ) :
    ∀ (n Step : Nat) (Pos Vel : Fin d → K),
      (Kick_Loop d sqrtF G Dt V1 ks n Step Pos Vel true).2 = [] := by
  intro n
  induction n with
  | zero =>
    intro Step Pos Vel
    rfl
  | succ n ih =>
    intro Step Pos Vel
    rw [Kick_Loop]
    simp only [Kick_Fire, Bool.not_true, Bool.false_and, Bool.false_or,
      if_neg (Bool.false_ne_true), List.nil_append]
    exact ih _ _ _

theorem Kick_Loop_fired_single (d : Nat) (sqrtF : K → K) (G Dt V1 : K) (ks : ℤ) :
    ∀ (n Step : Nat) (Pos Vel : Fin d → K),
      (Step : ℤ) ≤ ks → ks < (Step : ℤ) + n →
      (Kick_Loop d sqrtF G Dt V1 ks n Step Pos Vel false).2 = [ks.toNat] := by
  intro n
  induction n with
  | zero =>
    intro Step Pos Vel h1 h2
    exfalso
    push_cast at h2
    omega
  | succ n ih =>
    intro Step Pos Vel h1 h2
    rw [Kick_Loop]
    by_cases hks : ks ≤ (Step : ℤ)
    · have hfire : Kick_Fire ks Step false = true := by
        simp [Kick_Fire, hks]
      have hEq : ks = (Step : ℤ) := le_antisymm hks h1
      rw [hfire]
      simp only [Bool.true_or, if_true, eq_self_iff_true]
      rw [Kick_Loop_fired_done]
      simp [hEq]
    · have hfire : Kick_Fire ks Step false = false := by
        simp [Kick_Fire, hks]
      rw [hfire]
      simp only [Bool.false_or, List.nil_append, if_false]
      apply ih
      · omega
      · omega

/-- Claim C4 amended: for nonnegative trigger time, positive step size
and nonnegative total time, the configured kick branch executes exactly
once per run, namely at the step index obtained by rounding
trigger_time / Dt half to even and clamping into the valid step range;
when the rounding rounds down this step precedes the first step whose
simulated time reaches the trigger time. -/
theorem C4_amended_kick_once [FloorRing K] (d : Nat) (sqrtF : K → K)
    (G R0 V0 V1 Kick_Time Dt T_Total : K)
    (hkt : 0 ≤ Kick_Time) (hdt : 0 < Dt) (htt : 0 ≤ T_Total) :
    (Simulate_With_Tangential_Kick d sqrtF G R0 V0 V1 Kick_Time Dt T_Total).2.2.2 =
      [(Kick_Step_Of Kick_Time Dt (⌈T_Total / Dt⌉ + 1).toNat).toNat] := by
  have hratio : (0 : K) ≤ T_Total / Dt := div_nonneg htt (le_of_lt hdt)
  have hceil : (0 : ℤ) ≤ ⌈T_Total / Dt⌉ := Int.ceil_nonneg hratio
  have hSC1 : 1 ≤ (⌈T_Total / Dt⌉ + 1).toNat := by omega
  have hks0 : 0 ≤ Kick_Step_Of Kick_Time Dt (⌈T_Total / Dt⌉ + 1).toNat :=
    le_max_left _ _
  have hksSC : Kick_Step_Of Kick_Time Dt (⌈T_Total / Dt⌉ + 1).toNat <
      ((⌈T_Total / Dt⌉ + 1).toNat : ℤ) := by
    have h1 : Kick_Step_Of Kick_Time Dt (⌈T_Total / Dt⌉ + 1).toNat ≤
        ((⌈T_Total / Dt⌉ + 1).toNat : ℤ) - 1 := by
      unfold Kick_Step_Of
      apply max_le
      · omega
      · exact min_le_left _ _
    omega
  show (Kick_Loop d sqrtF G Dt V1
      (Kick_Step_Of Kick_Time Dt (⌈T_Total / Dt⌉ + 1).toNat)
      (⌈T_Total / Dt⌉ + 1).toNat 0 (Init_Pos d R0) (Init_Vel d V0) false).2 = _
  apply Kick_Loop_fired_single
  · exact_mod_cast hks0
  · omega

/-- Witness for C4 amended at a concrete input: trigger time 1, step
size 3, total time 9 over the rationals. -/
theorem C4_amended_kick_once_witness :
    (0 : ℚ) ≤ 1 ∧ (0 : ℚ) < 3 ∧ (0 : ℚ) ≤ 9 ∧
    (Simulate_With_Tangential_Kick 2 (fun x : ℚ => x) 0 1 0 5 1 3 9).2.2.2 =
      [(Kick_Step_Of (1 : ℚ) 3 (⌈(9 : ℚ) / 3⌉ + 1).toNat).toNat] :=
  ⟨by norm_num, by norm_num, by norm_num,
    C4_amended_kick_once 2 (fun x : ℚ => x) 0 1 0 5 1 3 9
      (by norm_num) (by norm_num) (by norm_num)⟩

/-- Counterexample to claim C4: with trigger time 1 and step size 3 the
kick branch executes only at step 0, whose simulated time 0 * 3 = 0 is
strictly below the trigger time 1; the kick does not happen at the first
step whose simulated time reaches the trigger time (that would be step
1), because round(1 / 3) = 0 rounds down. -/
theorem C4_counterexample :
    (Simulate_With_Tangential_Kick 2 (fun x : ℚ => x) 0 1 0 5 1 3 9).2.2.2 = [0] ∧
    (0 : ℚ) * 3 < 1 := by
  constructor
  · have hks : Kick_Step_Of (1 : ℚ) 3 (⌈(9 : ℚ) / 3⌉ + 1).toNat = 0 := by
      norm_num [Kick_Step_Of, pyRound]
    show (Kick_Loop 2 (fun x : ℚ => x) 0 3 5
        (Kick_Step_Of (1 : ℚ) 3 (⌈(9 : ℚ) / 3⌉ + 1).toNat)
        (⌈(9 : ℚ) / 3⌉ + 1).toNat 0 (Init_Pos 2 1) (Init_Vel 2 0) false).2 = [0]
    rw [hks]
    have hsc : (⌈(9 : ℚ) / 3⌉ + 1).toNat = 4 := by
      norm_num
      rfl
    rw [hsc]
    rw [Kick_Loop_fired_single 2 (fun x : ℚ => x) 0 3 5 0 4 0
      (Init_Pos 2 1) (Init_Vel 2 0) (by norm_num) (by norm_num)]
    rfl
  · norm_num

/-- Claim C8: for a position of positive norm, the weak-field
acceleration is the Newtonian term -G * P / |P| cubed plus the
correction term -3 * G * L2 / (c squared * |P| to the fifth) * P, with
L2 the squared magnitude of the cross product of position and
velocity. -/
theorem C8_weak_field_acceleration (sqrtF : K → K) (G C : K) (Pos Vel : Fin 3 → K)
    (h : 0 < sqrtF (norm2 3 Pos)) :
    Acc_Vector_GR_Approx sqrtF G C Pos Vel = fun i =>
      -(G * Pos i) / sqrtF (norm2 3 Pos) ^ 3 +
        -(3 * G * norm2 3 (cross3 Pos Vel)) /
          (C ^ 2 * sqrtF (norm2 3 Pos) ^ 5) * Pos i := by
  funext i
  unfold Acc_Vector_GR_Approx
  have hd : dot3 (cross3 Pos Vel) (cross3 Pos Vel) = norm2 3 (cross3 Pos Vel) := by
    unfold dot3 norm2
    refine Finset.sum_congr rfl ?_
    intro j _
    ring
  rw [hd]
  ring

/-- Witness for C8 at a concrete input over the rationals, with the
abstract square root instantiated by the constant-one function so that
the positivity hypothesis is concrete. -/
theorem C8_weak_field_acceleration_witness :
    (0 : ℚ) < (fun _ : ℚ => 1) (norm2 3 ![1, 0, 0]) ∧
    Acc_Vector_GR_Approx (fun _ : ℚ => 1) 2 5 ![1, 0, 0] ![0, 1, 0] = fun i =>
      -(2 * (![1, 0, 0] : Fin 3 → ℚ) i) / (fun _ : ℚ => 1) (norm2 3 ![1, 0, 0]) ^ 3 +
        -(3 * 2 * norm2 3 (cross3 ![1, 0, 0] ![0, 1, 0])) /
          ((5 : ℚ) ^ 2 * (fun _ : ℚ => 1) (norm2 3 ![1, 0, 0]) ^ 5) *
            (![1, 0, 0] : Fin 3 → ℚ) i :=
  ⟨by norm_num,
    C8_weak_field_acceleration (fun _ : ℚ => 1) 2 5 ![1, 0, 0] ![0, 1, 0] (by norm_num)⟩

theorem Radial_Loop_times (G Dt R_Min : K) :
    ∀ (n : Nat) (R V T : K),
      List.Chain' (fun a b : K × K => b.1 - a.1 = Dt) (Radial_Loop G Dt R_Min n R V T).1 ∧
      (∀ p, (Radial_Loop G Dt R_Min n R V T).1.head? = some p → p.1 = T + Dt) := by
  intro n
  induction n with
  | zero =>
    intro R V T
    exact ⟨List.chain'_nil, by intro p hp; simp [Radial_Loop] at hp⟩
  | succ n ih =>
    intro R V T
    rw [Radial_Loop]
    by_cases h1 : R ≤ R_Min
    · rw [if_pos h1]
      exact ⟨List.chain'_nil, by intro p hp; simp at hp⟩
    · rw [if_neg h1]
      simp only
      by_cases h2 : R + V * Dt + 1 / 2 * Radial_Acc G R * Dt * Dt ≤ R_Min
      · rw [if_pos h2]
        refine ⟨List.chain'_singleton _, ?_⟩
        intro p hp
        simp at hp
        rw [← hp]
      · rw [if_neg h2]
        simp only
        constructor
        · rw [List.chain'_cons']
          constructor
          · intro y hy
            have := (ih (R + V * Dt + 1 / 2 * Radial_Acc G R * Dt * Dt)
              (V + 1 / 2 * (Radial_Acc G R +
                Radial_Acc G (R + V * Dt + 1 / 2 * Radial_Acc G R * Dt * Dt)) * Dt)
              (T + Dt)).2 y (by simpa using hy)
            rw [this]
            ring
          · exact (ih _ _ _).1
        · intro p hp
          simp at hp
          rw [← hp]

/-- The first recorded entry of the kick loop is the state produced by
the integration step applied to the (possibly kicked) starting state. -/
theorem Kick_Loop_head (d : Nat) (sqrtF : K → K) (G Dt V1 : K) (ks : ℤ) (n Step : Nat)
    (Pos Vel : Fin d → K) (done : Bool) :
    (Kick_Loop d sqrtF G Dt V1 ks (n + 1) Step Pos Vel done).1.head? =
      some (Step_031 d sqrtF G Dt Pos
        (if Kick_Fire ks Step done then Kick_Update d sqrtF V1 Vel else Vel)) := by
  rw [Kick_Loop]
  rfl

/-- Claim C7 amended: in the kick simulation the time array starts at 0
and consecutive times differ by exactly Dt, but the first recorded
state entry is the state after the first integration step (applied to
the possibly kicked initial state), not the supplied initial state; in
the radial-fall simulation consecutive recorded times also differ by
exactly Dt but the first recorded time is Dt, not 0, and the initial
state is never recorded. -/
theorem C7_amended_trace_layout [FloorRing K] (d : Nat) (sqrtF : K → K)
    (G R0 V0 V1 Kick_Time Dt T_Total : K)
    (G2 R_Start V_Start Dt2 R_Min : K) (Step_Count2 : Nat)
    (hdt : 0 < Dt) (htt : 0 ≤ T_Total) :
    (Simulate_With_Tangential_Kick d sqrtF G R0 V0 V1 Kick_Time Dt T_Total).2.1.head? =
      some 0 ∧
    List.Chain' (fun a b : K => b - a = Dt)
      (Simulate_With_Tangential_Kick d sqrtF G R0 V0 V1 Kick_Time Dt T_Total).2.1 ∧
    (Simulate_With_Tangential_Kick d sqrtF G R0 V0 V1 Kick_Time Dt T_Total).1.head? =
      some (Step_031 d sqrtF G Dt (Init_Pos d R0)
        (if Kick_Fire (Kick_Step_Of Kick_Time Dt (⌈T_Total / Dt⌉ + 1).toNat) 0 false
          then Kick_Update d sqrtF V1 (Init_Vel d V0) else Init_Vel d V0)) ∧
    List.Chain' (fun a b : K × K => b.1 - a.1 = Dt2)
      (Simulate_Radial_Fall G2 R_Start V_Start Dt2 Step_Count2 R_Min).1 ∧
    (∀ p, (Simulate_Radial_Fall G2 R_Start V_Start Dt2 Step_Count2 R_Min).1.head? =
      some p → p.1 = Dt2) := by
  have hceil : (0 : ℤ) ≤ ⌈T_Total / Dt⌉ :=
    Int.ceil_nonneg (div_nonneg htt (le_of_lt hdt))
  obtain ⟨m, hm⟩ : ∃ m, (⌈T_Total / Dt⌉ + 1).toNat = m + 1 :=
    ⟨⌈T_Total / Dt⌉.toNat, by omega⟩
  refine ⟨?_, ?_, ?_, ?_, ?_⟩
  · show ((List.range (⌈T_Total / Dt⌉ + 1).toNat).map
      (fun i : ℕ => (i : K) * Dt)).head? = some 0
    rw [hm, List.range_succ_eq_map]
    simp
  · show List.Chain' (fun a b : K => b - a = Dt)
      ((List.range (⌈T_Total / Dt⌉ + 1).toNat).map (fun i : ℕ => (i : K) * Dt))
    rw [List.chain'_map (fun i : ℕ => (i : K) * Dt)]
    cases hn : (⌈T_Total / Dt⌉ + 1).toNat with
    | zero => exact List.chain'_nil
    | succ n =>
      rw [List.chain'_range_succ]
      intro i _
      push_cast
      ring
  · show (Kick_Loop d sqrtF G Dt V1
        (Kick_Step_Of Kick_Time Dt (⌈T_Total / Dt⌉ + 1).toNat)
        (⌈T_Total / Dt⌉ + 1).toNat 0 (Init_Pos d R0) (Init_Vel d V0) false).1.head? = _
    rw [hm]
    exact Kick_Loop_head d sqrtF G Dt V1 _ m 0 (Init_Pos d R0) (Init_Vel d V0) false
  · exact (Radial_Loop_times G2 Dt2 R_Min Step_Count2 R_Start V_Start 0).1
  · intro p hp
    have := (Radial_Loop_times G2 Dt2 R_Min Step_Count2 R_Start V_Start 0).2 p hp
    rw [this]
    ring

/-- Witness for C7 amended at a concrete input over the rationals. -/
theorem C7_amended_trace_layout_witness :
    (0 : ℚ) < 3 ∧ (0 : ℚ) ≤ 9 ∧
    (Simulate_With_Tangential_Kick 2 (fun x : ℚ => x) 0 1 0 5 1 3 9).2.1.head? =
      some 0 :=
  ⟨by norm_num, by norm_num,
    (C7_amended_trace_layout 2 (fun x : ℚ => x) 0 1 0 5 1 3 9 0 2 0 1 1 3
      (by norm_num) (by norm_num)).1⟩

/-- Acc of Simulate_Multi_Circular_Orbits in 030-Circular-Orbit.py:
R = hypot(x, y), Factor = -G / (R * R), returning (Factor * x,
Factor * y). -/
def Orbit_Acc (sqrtF : K → K) (G x y : K) : K × K :=
  let R := sqrtF (x * x + y * y)
  let Factor := -G / (R * R)
  (Factor * x, Factor * y)

/-- One per-body velocity-Verlet update of the stepping loop of
Simulate_Multi_Circular_Orbits; the state is ((x, y), (vx, vy)).  The
numpy loop computes these componentwise over all bodies at once; every
operation is elementwise, so the update factors through each body. -/
def Orbit_Step (sqrtF : K → K) (G Dt : K) (s : (K × K) × (K × K)) : (K × K) × (K × K) :=
  let a0 := Orbit_Acc sqrtF G s.1.1 s.1.2
  let xn := s.1.1 + s.2.1 * Dt + 1 / 2 * a0.1 * Dt * Dt
  let yn := s.1.2 + s.2.2 * Dt + 1 / 2 * a0.2 * Dt * Dt
  let a1 := Orbit_Acc sqrtF G xn yn
  ((xn, yn), (s.2.1 + 1 / 2 * (a0.1 + a1.1) * Dt, s.2.2 + 1 / 2 * (a0.2 + a1.2) * Dt))

/-- The stepping loop of Simulate_Multi_Circular_Orbits: per step, every
body state is updated and the updated positions of all bodies are
recorded as one column X_Array[:, Step], Y_Array[:, Step]. -/
def Orbit_Loop (sqrtF : K → K) (G Dt : K) :
    Nat → List ((K × K) × (K × K)) → List (List (K × K))
  | 0, _ => []
  | n + 1, states =>
    let states2 := states.map (Orbit_Step sqrtF G Dt)
    states2.map Prod.fst :: Orbit_Loop sqrtF G Dt n states2

/-- Initial state of body I of Simulate_Multi_Circular_Orbits: angle
theta = twoPi * I / N from Np.linspace(0, 2 pi, N, endpoint=False),
position on the circle of radius R_Orbit and purely tangential velocity
of magnitude V_Orbit. -/
def Body_Init (cosF sinF : K → K) (twoPi : K) (N I : Nat) (V_Orbit R_Orbit : K) :
    (K × K) × (K × K) :=
  ((R_Orbit * cosF (twoPi * (I : K) / (N : K)),
    R_Orbit * sinF (twoPi * (I : K) / (N : K))),
   (-V_Orbit * sinF (twoPi * (I : K) / (N : K)),
    V_Orbit * cosF (twoPi * (I : K) / (N : K))))

/-- Simulate_Multi_Circular_Orbits of 030-Circular-Orbit.py, returning
the per-step columns of recorded (x, y) positions for all bodies; the
cosine, sine and square-root routines and the 2 pi constant are
abstracted as parameters. -/
def Simulate_Multi_Circular_Orbits (sqrtF cosF sinF : K → K) (twoPi G V_Orbit Dt : K)
    (R_List : List K) (Step_Count : Nat) : List (List (K × K)) :=
  Orbit_Loop sqrtF G Dt Step_Count
    (R_List.enum.map (fun p => Body_Init cosF sinF twoPi R_List.length p.1 V_Orbit p.2))

theorem Orbit_Loop_get (sqrtF : K → K) (G Dt : K) :
    ∀ (n : Nat) (s1 s2 : List ((K × K) × (K × K))) (I : Nat),
      s1.get? I = s2.get? I →
      (Orbit_Loop sqrtF G Dt n s1).map (fun col => col.get? I) =
        (Orbit_Loop sqrtF G Dt n s2).map (fun col => col.get? I) := by
  intro n
  induction n with
  | zero =>
    intro s1 s2 I h
    rfl
  | succ n ih =>
    intro s1 s2 I h
    rw [Orbit_Loop, Orbit_Loop]
    simp only [List.map_cons]
    have hstep : (s1.map (Orbit_Step sqrtF G Dt)).get? I =
        (s2.map (Orbit_Step sqrtF G Dt)).get? I := by
      rw [List.get?_map, List.get?_map, h]
    congr 1
    · simp only [List.get?_map, h]
    · exact ih _ _ I hstep

/-- Claim C9: two runs of the multi-body circular-orbit simulation with
identical G, V_Orbit, Dt and step count, and radius lists of equal
length agreeing at index I, record identical position entries for body
I at every step: body I has no data dependency on the other bodies. -/
theorem C9_multi_orbit_independence (sqrtF cosF sinF : K → K) (twoPi G V_Orbit Dt : K)
    (L1 L2 : List K) (Step_Count I : Nat)
    (hlen : L1.length = L2.length) (hI : L1.get? I = L2.get? I) :
    (Simulate_Multi_Circular_Orbits sqrtF cosF sinF twoPi G V_Orbit Dt L1 Step_Count).map
        (fun col => col.get? I) =
      (Simulate_Multi_Circular_Orbits sqrtF cosF sinF twoPi G V_Orbit Dt L2 Step_Count).map
        (fun col => col.get? I) := by
  unfold Simulate_Multi_Circular_Orbits
  apply Orbit_Loop_get
  rw [List.get?_map, List.get?_map, List.get?_enum, List.get?_enum, hI, hlen]

/-- Witness for C9 at a concrete input: radius lists [1, 2] and [1, 3]
agreeing at index 0, over the rationals with all transcendental
routines instantiated by the identity. -/
theorem C9_multi_orbit_independence_witness :
    ([(1 : ℚ), 2].length = [(1 : ℚ), 3].length) ∧
    ([(1 : ℚ), 2].get? 0 = [(1 : ℚ), 3].get? 0) ∧
    (Simulate_Multi_Circular_Orbits (fun x : ℚ => x) (fun x : ℚ => x) (fun x : ℚ => x)
        7 1 2 1 [(1 : ℚ), 2] 1).map (fun col => col.get? 0) =
      (Simulate_Multi_Circular_Orbits (fun x : ℚ => x) (fun x : ℚ => x) (fun x : ℚ => x)
        7 1 2 1 [(1 : ℚ), 3] 1).map (fun col => col.get? 0) :=
  ⟨rfl, rfl,
    C9_multi_orbit_independence (fun x : ℚ => x) (fun x : ℚ => x) (fun x : ℚ => x)
      7 1 2 1 [(1 : ℚ), 2] [(1 : ℚ), 3] 1 0 rfl rfl⟩

/-- Np.interp of numpy on knot pairs (time, value): below the first knot
the first value, beyond the last knot the last value, otherwise the
linear interpolation on the bracketing interval. -/
def pyInterp (x : K) : List (K × K) → K
  | [] => 0
  | [(_, f0)] => f0
  | (x0, f0) :: (x1, f1) :: rest =>
    if x ≤ x0 then f0
    else if x ≤ x1 then f0 + (f1 - f0) * (x - x0) / (x1 - x0)
    else pyInterp x ((x1, f1) :: rest)

/-- Interpolate_R_T_With_Stop of 020-Radial-Fall-Movie.py: per query
time, if it does not exceed the final recorded time the output is the
query time and Np.interp of it over the trace, otherwise the final
recorded time and final recorded radius. -/
def Interpolate_R_T_With_Stop (T_Array R_Array T_Query : List K) : List K × List K :=
  ((T_Query.map fun tq =>
      if tq ≤ T_Array.getLastD 0 then tq else T_Array.getLastD 0),
   (T_Query.map fun tq =>
      if tq ≤ T_Array.getLastD 0 then pyInterp tq (T_Array.zip R_Array)
      else R_Array.getLastD 0))

theorem pyInterp_knot (x : K) :
    ∀ (l : List (K × K)), List.Chain' (fun a b : K => a < b) (l.map Prod.fst) →
      ∀ (f : K), (x, f) ∈ l → pyInterp x l = f := by
  intro l
  induction l with
  | nil =>
    intro _ f hf
    simp at hf
  | cons a l ih =>
    intro hch f hf
    rcases a with ⟨x0, f0⟩
    cases l with
    | nil =>
      simp at hf
      rw [hf.1, hf.2]
      rfl
    | cons b l2 =>
      rcases b with ⟨x1, f1⟩
      have hpw : List.Pairwise (fun a b : K => a < b)
          (((x0, f0) :: (x1, f1) :: l2).map Prod.fst) :=
        List.chain'_iff_pairwise.mp hch
      simp only [List.map_cons, List.pairwise_cons] at hpw
      rw [List.mem_cons] at hf
      rcases hf with hf | hf
      · rw [Prod.mk.injEq] at hf
        rw [hf.1, hf.2]
        show (if x0 ≤ x0 then f0 else _) = f0
        rw [if_pos (le_refl x0)]
      · have hx0 : x0 < x := by
          have hx0' : x0 < (x, f).1 := by
            apply hpw.1
            exact List.mem_map_of_mem Prod.fst hf
          simpa using hx0'
        rw [List.mem_cons] at hf
        rcases hf with hf | hf
        · rw [Prod.mk.injEq] at hf
          obtain ⟨hx, hfeq⟩ := hf
          subst hx
          subst hfeq
          show (if x ≤ x0 then f0
            else if x ≤ x then f0 + (f - f0) * (x - x0) / (x - x0)
            else pyInterp x ((x, f) :: l2)) = f
          rw [if_neg (not_le_of_lt hx0), if_pos (le_refl x)]
          have hne : x - x0 ≠ 0 := sub_ne_zero.mpr (ne_of_gt hx0)
          rw [mul_div_assoc, div_self hne, mul_one]
          ring
        · have hx1 : x1 < x := by
            have hpw2 : List.Pairwise (fun a b : K => a < b)
                (((x1, f1) :: l2).map Prod.fst) := by
              have := List.chain'_iff_pairwise.mp hch
              simp only [List.map_cons] at this ⊢
              exact (List.pairwise_cons.mp this).2
            have := (List.pairwise_cons.mp (by simpa using hpw2)).1 (x, f).1
              (List.mem_map_of_mem Prod.fst hf)
            simpa using this
          show (if x ≤ x0 then f0
            else if x ≤ x1 then f0 + (f1 - f0) * (x - x0) / (x1 - x0)
            else pyInterp x ((x1, f1) :: l2)) = f
          rw [if_neg (not_le_of_lt hx0), if_neg (not_le_of_lt hx1)]
          apply ih
          · have := List.chain'_iff_pairwise.mpr
              (List.pairwise_cons.mp (List.chain'_iff_pairwise.mp hch)).2
            simpa using this
          · exact List.mem_cons_of_mem _ hf

theorem pyInterp_bracket (x : K) :
    ∀ (l : List (K × K)), List.Chain' (fun a b : K => a < b) (l.map Prod.fst) →
      2 ≤ l.length →
      (∀ y : K × K, l.head? = some y → y.1 ≤ x) →
      (∃ pl ∈ l, x ≤ pl.1) →
      ∃ (j : Nat) (p q : K × K), l.get? j = some p ∧ l.get? (j + 1) = some q ∧
        p.1 ≤ x ∧ x ≤ q.1 ∧
        pyInterp x l = p.2 + (q.2 - p.2) * (x - p.1) / (q.1 - p.1) := by
  intro l
  induction l with
  | nil =>
    intro _ hlen
    simp at hlen
  | cons a l ih =>
    intro hch hlen hhead hup
    rcases a with ⟨x0, f0⟩
    cases l with
    | nil =>
      simp at hlen
    | cons b l2 =>
      rcases b with ⟨x1, f1⟩
      simp only [List.map_cons] at hch
      have hx0 : x0 ≤ x := hhead (x0, f0) rfl
      have h01 : x0 < x1 := (List.chain'_cons.mp hch).1
      by_cases hx1 : x ≤ x1
      · refine ⟨0, (x0, f0), (x1, f1), rfl, rfl, hx0, hx1, ?_⟩
        show (if x ≤ x0 then f0
          else if x ≤ x1 then f0 + (f1 - f0) * (x - x0) / (x1 - x0)
          else pyInterp x ((x1, f1) :: l2)) =
            f0 + (f1 - f0) * (x - x0) / (x1 - x0)
        by_cases hxeq : x ≤ x0
        · have hxx0 : x = x0 := le_antisymm hxeq hx0
          rw [if_pos hxeq, hxx0, sub_self, mul_zero, zero_div, add_zero]
        · rw [if_neg hxeq, if_pos hx1]
      · have hx1' : x1 < x := lt_of_not_le hx1
        obtain ⟨pl, hpl_mem, hpl⟩ := hup
        have hpl2 : pl ∈ l2 := by
          rw [List.mem_cons] at hpl_mem
          rcases hpl_mem with hpl_mem | hpl_mem
          · exfalso
            rw [hpl_mem] at hpl
            exact absurd (le_trans hpl (le_of_lt h01)) hx1
          · rw [List.mem_cons] at hpl_mem
            rcases hpl_mem with hpl_mem | hpl_mem
            · exfalso
              rw [hpl_mem] at hpl
              exact hx1 hpl
            · exact hpl_mem
        have hlen2 : 2 ≤ ((x1, f1) :: l2).length := by
          cases l2 with
          | nil => simp at hpl2
          | cons c l3 => simp [List.length_cons]
        obtain ⟨j, p, q, h1, h2, h3, h4, h5⟩ := ih (List.chain'_cons.mp hch).2 hlen2
          (by
            intro y hy
            simp at hy
            rw [← hy]
            exact le_of_lt hx1')
          ⟨pl, List.mem_cons_of_mem _ hpl2, hpl⟩
        refine ⟨j + 1, p, q, ?_, ?_, h3, h4, ?_⟩
        · rw [List.get?_cons_succ]
          exact h1
        · rw [List.get?_cons_succ]
          exact h2
        · show (if x ≤ x0 then f0
            else if x ≤ x1 then f0 + (f1 - f0) * (x - x0) / (x1 - x0)
            else pyInterp x ((x1, f1) :: l2)) =
              p.2 + (q.2 - p.2) * (x - p.1) / (q.1 - p.1)
          rw [if_neg (not_le_of_lt (lt_trans h01 hx1')), if_neg hx1]
          exact h5

theorem zip_getLast?_of_length_eq {α β : Type} :
    ∀ (l1 : List α) (l2 : List β), l1.length = l2.length →
      ∀ (a : α) (b : β), l1.getLast? = some a → l2.getLast? = some b →
      (l1.zip l2).getLast? = some (a, b) := by
  intro l1
  induction l1 with
  | nil =>
    intro l2 hlen a b ha hb
    simp at ha
  | cons c t1 ih =>
    intro l2 hlen a b ha hb
    cases l2 with
    | nil =>
      simp at hlen
    | cons d t2 =>
      cases t1 with
      | nil =>
        have ht2 : t2 = [] := by
          simp at hlen
          exact hlen
        subst ht2
        simp at ha hb
        rw [List.zip_cons_cons]
        simp [ha, hb]
      | cons e t1' =>
        cases t2 with
        | nil =>
          simp at hlen
        | cons f2 t2' =>
          rw [List.getLast?_cons_cons] at ha
          rw [List.getLast?_cons_cons] at hb
          have hlen' : (e :: t1').length = (f2 :: t2').length := by
            simpa using hlen
          have hrec := ih (f2 :: t2') hlen' a b ha hb
          rw [List.zip_cons_cons]
          rw [List.zip_cons_cons] at hrec
          rw [List.zip_cons_cons]
          rw [List.getLast?_cons_cons]
          exact hrec

/-- Claim C5: for a nonempty trace with strictly increasing times whose
time and value arrays have equal length, the Resampler outputs, for each
query time: (clamp) beyond the final recorded time, the final recorded
time and final recorded value, so any two queries beyond the end give
identical output; (pass-through) otherwise the query time itself;
(knot) a query at a recorded time returns that recorded value; and
(bracket) a query between the first and last recorded times returns the
linear interpolation between two bracketing trace samples. -/
theorem C5_resampler (T_Array R_Array T_Query : List K)
    (hlen : T_Array.length = R_Array.length)
    (hne : T_Array ≠ [])
    (hsort : List.Chain' (fun a b : K => a < b) T_Array) :
    (∀ (i : Nat) (tq : K), T_Query.get? i = some tq →
      ¬ tq ≤ T_Array.getLastD 0 →
      (Interpolate_R_T_With_Stop T_Array R_Array T_Query).1.get? i =
          some (T_Array.getLastD 0) ∧
        (Interpolate_R_T_With_Stop T_Array R_Array T_Query).2.get? i =
          some (R_Array.getLastD 0)) ∧
    (∀ (i : Nat) (tq : K), T_Query.get? i = some tq →
      tq ≤ T_Array.getLastD 0 →
      (Interpolate_R_T_With_Stop T_Array R_Array T_Query).1.get? i = some tq) ∧
    (∀ (i j : Nat) (tq r : K), T_Query.get? i = some tq →
      tq ≤ T_Array.getLastD 0 →
      T_Array.get? j = some tq → R_Array.get? j = some r →
      (Interpolate_R_T_With_Stop T_Array R_Array T_Query).2.get? i = some r) ∧
    (∀ (i : Nat) (tq : K), T_Query.get? i = some tq →
      tq ≤ T_Array.getLastD 0 →
      2 ≤ T_Array.length →
      (∀ t0, T_Array.head? = some t0 → t0 ≤ tq) →
      ∃ (j : Nat) (tj tj1 rj rj1 : K),
        T_Array.get? j = some tj ∧ T_Array.get? (j + 1) = some tj1 ∧
        R_Array.get? j = some rj ∧ R_Array.get? (j + 1) = some rj1 ∧
        tj ≤ tq ∧ tq ≤ tj1 ∧
        (Interpolate_R_T_With_Stop T_Array R_Array T_Query).2.get? i =
          some (rj + (rj1 - rj) * (tq - tj) / (tj1 - tj))) := by
  have hneR : R_Array ≠ [] := by
    intro h
    rw [h, List.length_nil] at hlen
    exact hne (List.length_eq_zero.mp hlen)
  obtain ⟨y, hy⟩ : ∃ y, T_Array.getLast? = some y :=
    ⟨_, List.getLast?_eq_getLast_of_ne_nil hne⟩
  obtain ⟨z, hz⟩ : ∃ z, R_Array.getLast? = some z :=
    ⟨_, List.getLast?_eq_getLast_of_ne_nil hneR⟩
  have hTD : T_Array.getLastD 0 = y := by
    rw [List.getLastD_eq_getLast?, hy]
    rfl
  have hRD : R_Array.getLastD 0 = z := by
    rw [List.getLastD_eq_getLast?, hz]
    rfl
  have hchz : List.Chain' (fun a b : K => a < b) ((T_Array.zip R_Array).map Prod.fst) := by
    rw [List.map_fst_zip T_Array R_Array (le_of_eq hlen)]
    exact hsort
  refine ⟨?_, ?_, ?_, ?_⟩
  · intro i tq hqi htq
    constructor
    · show (T_Query.map fun tq2 =>
        if tq2 ≤ T_Array.getLastD 0 then tq2 else T_Array.getLastD 0).get? i = _
      rw [List.get?_map, hqi]
      simp only [Option.map_some']
      rw [if_neg htq]
    · show (T_Query.map fun tq2 =>
        if tq2 ≤ T_Array.getLastD 0 then pyInterp tq2 (T_Array.zip R_Array)
        else R_Array.getLastD 0).get? i = _
      rw [List.get?_map, hqi]
      simp only [Option.map_some']
      rw [if_neg htq]
  · intro i tq hqi htq
    show (T_Query.map fun tq2 =>
      if tq2 ≤ T_Array.getLastD 0 then tq2 else T_Array.getLastD 0).get? i = _
    rw [List.get?_map, hqi]
    simp only [Option.map_some']
    rw [if_pos htq]
  · intro i j tq r hqi htq hTj hRj
    show (T_Query.map fun tq2 =>
      if tq2 ≤ T_Array.getLastD 0 then pyInterp tq2 (T_Array.zip R_Array)
      else R_Array.getLastD 0).get? i = some r
    rw [List.get?_map, hqi]
    simp only [Option.map_some']
    rw [if_pos htq]
    congr 1
    exact pyInterp_knot tq (T_Array.zip R_Array) hchz r
      (List.get?_mem ((List.get?_zip_eq_some T_Array R_Array (tq, r) j).mpr ⟨hTj, hRj⟩))
  · intro i tq hqi htq h2 hhead
    have h2z : 2 ≤ (T_Array.zip R_Array).length := by
      rw [List.length_zip, ← hlen, min_self]
      exact h2
    have hheadz : ∀ y2 : K × K, (T_Array.zip R_Array).head? = some y2 → y2.1 ≤ tq := by
      intro y2 hy2
      cases T_Array with
      | nil => exact absurd rfl hne
      | cons t ts =>
        cases R_Array with
        | nil => exact absurd rfl hneR
        | cons r2 rs =>
          rw [List.zip_cons_cons] at hy2
          simp at hy2
          rw [← hy2]
          exact hhead t rfl
    have hupz : ∃ pl ∈ T_Array.zip R_Array, tq ≤ pl.1 := by
      refine ⟨(y, z), ?_, ?_⟩
      · have hzl : (T_Array.zip R_Array).getLast? = some (y, z) :=
          zip_getLast?_of_length_eq T_Array R_Array hlen y z hy hz
        have hmem : (y, z) ∈ (T_Array.zip R_Array).getLast? := Option.mem_def.mpr hzl
        obtain ⟨hne2, heq⟩ := List.mem_getLast?_eq_getLast hmem
        rw [heq]
        exact List.getLast_mem hne2
      · rw [← hTD]
        exact htq
    obtain ⟨j, p, q, hj, hj1, hp1, hq1, hval⟩ :=
      pyInterp_bracket tq (T_Array.zip R_Array) hchz h2z hheadz hupz
    have hjT := (List.get?_zip_eq_some T_Array R_Array p j).mp hj
    have hj1T := (List.get?_zip_eq_some T_Array R_Array q (j + 1)).mp hj1
    refine ⟨j, p.1, q.1, p.2, q.2, hjT.1, hj1T.1, hjT.2, hj1T.2, hp1, hq1, ?_⟩
    show (T_Query.map fun tq2 =>
      if tq2 ≤ T_Array.getLastD 0 then pyInterp tq2 (T_Array.zip R_Array)
      else R_Array.getLastD 0).get? i = _
    rw [List.get?_map, hqi]
    simp only [Option.map_some']
    rw [if_pos htq, hval]

/-- Witness for C5 at a concrete input: trace times [1, 2] with values
[10, 20] and query time 3 beyond the end, which clamps to the final
recorded time 2 and final recorded value 20. -/
theorem C5_resampler_witness :
    ([(1 : ℚ), 2].length = [(10 : ℚ), 20].length) ∧
    (([(1 : ℚ), 2] : List ℚ) ≠ []) ∧
    List.Chain' (fun a b : ℚ => a < b) [(1 : ℚ), 2] ∧
    ¬ (3 : ℚ) ≤ [(1 : ℚ), 2].getLastD 0 ∧
    ((Interpolate_R_T_With_Stop [(1 : ℚ), 2] [10, 20] [3]).1.get? 0 =
        some ([(1 : ℚ), 2].getLastD 0) ∧
      (Interpolate_R_T_With_Stop [(1 : ℚ), 2] [10, 20] [3]).2.get? 0 =
        some ([(10 : ℚ), 20].getLastD 0)) :=
  ⟨rfl, by simp, by norm_num [List.chain'_cons], by norm_num [List.getLastD],
    (C5_resampler [(1 : ℚ), 2] [10, 20] [3] rfl (by simp)
      (by norm_num [List.chain'_cons])).1 0 3 rfl (by norm_num [List.getLastD])⟩
